import Mathlib

/-!
Shallow embedding of the @systeric/pg-queue message-queue core
(PostgresQueueRepository, QueueMessage entity, PgQueue facade,
IdempotencyHandler) and proofs of the frozen claims about it.

Timestamps are modelled as natural numbers of milliseconds; the database
table of one queue is a list of rows; SQL statements are translated into
list transformations.  Every definition is translated from the TypeScript
source file named in its doc comment.
-/

namespace PgQueueSpec

/-- Message lifecycle status, from MessageStatus (domain/vo/MessageStatus.ts):
the closed enumeration PENDING, PROCESSING, COMPLETED, FAILED, DEAD_LETTER. -/
inductive MessageStatus where
  | pending
  | processing
  | completed
  | failed
  | deadLetter
  deriving DecidableEq, Repr

/-- One row of the per-queue table (QueueMessageRow in
PostgresQueueRepository.ts / QueueMessageData in QueueMessage.ts).
Timestamps are milliseconds; `payload` is kept opaque as a string. -/
structure Row where
  id : Nat
  msgType : String
  payload : String
  status : MessageStatus
  priority : Nat
  retryCount : Nat
  maxRetries : Nat
  lastError : Option String
  nextRetryAt : Option Nat
  createdAt : Nat
  updatedAt : Nat
  deriving DecidableEq, Repr

/-- Errors thrown by the QueueMessage entity (MessageValidationError,
InvalidMessageStateError in PgQueueErrors.ts). -/
inductive EntityError where
  | validation (msg : String)
  | invalidState (msg : String)
  deriving DecidableEq, Repr

/-- QueueMessage.calculateNextRetryAt: backoffSeconds = min(2^(retryCount-1), 60),
result is Date.now() + backoffSeconds * 1000, with retryCount the already
incremented retry count. -/
def calculateNextRetryAt (now retryCount : Nat) : Nat :=
  now + 1000 * min (2 ^ (retryCount - 1)) 60

/-- JavaScript String.prototype.trim: drop whitespace from both ends
(structural model, since String.trim is not kernel-reducible). -/
def jsTrim (s : String) : String :=
  ⟨((s.data.dropWhile Char.isWhitespace).reverse.dropWhile Char.isWhitespace).reverse⟩

/-- QueueMessage.create: validates type (trimmed, nonempty, at most 255 chars)
and maxRetries (at least 1), then builds a PENDING row with retryCount 0 and
no lastError / nextRetryAt.  The random id is passed in explicitly. -/
def QueueMessage.create (id : Nat) (msgType payload : String)
    (priority maxRetries now : Nat) : Except EntityError Row :=
  let ty := jsTrim msgType
  if ty = "" then
    .error (.validation "Message type cannot be empty")
  else if 255 < ty.length then
    .error (.validation "Message type cannot exceed 255 characters")
  else if maxRetries < 1 then
    .error (.validation "Max retries must be at least 1")
  else
    .ok { id := id, msgType := ty, payload := payload,
          status := .pending, priority := priority,
          retryCount := 0, maxRetries := maxRetries,
          lastError := none, nextRetryAt := none,
          createdAt := now, updatedAt := now }

/-- QueueMessage.markAsProcessing: PENDING to PROCESSING, bumping updatedAt. -/
def markAsProcessing (now : Nat) (m : Row) : Except EntityError Row :=
  if m.status ≠ .pending then
    .error (.invalidState "Cannot mark as processing: message is not pending")
  else
    .ok { m with status := .processing, updatedAt := now }

/-- QueueMessage.markAsCompleted: PROCESSING to COMPLETED, bumping updatedAt. -/
def markAsCompleted (now : Nat) (m : Row) : Except EntityError Row :=
  if m.status ≠ .processing then
    .error (.invalidState "Cannot mark as completed: message is not processing")
  else
    .ok { m with status := .completed, updatedAt := now }

/-- QueueMessage.markAsFailed: requires PROCESSING; increments retryCount and
records the error message; if the new retryCount exceeds maxRetries the row
becomes DEAD_LETTER with nextRetryAt cleared, otherwise FAILED with
nextRetryAt computed by calculateNextRetryAt. -/
def markAsFailed (now : Nat) (errMsg : String) (m : Row) : Except EntityError Row :=
  if m.status ≠ .processing then
    .error (.invalidState "Cannot mark as failed: message is not processing")
  else
    let rc := m.retryCount + 1
    if m.maxRetries < rc then
      .ok { m with retryCount := rc, lastError := some errMsg,
                   status := .deadLetter, nextRetryAt := none, updatedAt := now }
    else
      .ok { m with retryCount := rc, lastError := some errMsg,
                   status := .failed,
                   nextRetryAt := some (calculateNextRetryAt now rc),
                   updatedAt := now }

/-- QueueMessage.resetToPending: FAILED back to PENDING, clearing nextRetryAt. -/
def resetToPending (now : Nat) (m : Row) : Except EntityError Row :=
  if m.status ≠ .failed then
    .error (.invalidState "Cannot reset to pending: message is not failed")
  else
    .ok { m with status := .pending, nextRetryAt := none, updatedAt := now }

/-- QueueMessage.retry: unconditionally back to PENDING, clearing retryCount,
lastError and nextRetryAt. -/
def retryEntity (now : Nat) (m : Row) : Row :=
  { m with status := .pending, retryCount := 0, lastError := none,
           nextRetryAt := none, updatedAt := now }

/-- SELECT * FROM table WHERE id = $1 (PostgresQueueRepository.findById):
first row with the given primary key. -/
def findById (id : Nat) : List Row → Option Row
  | [] => none
  | r :: rs => if r.id = id then some r else findById id rs

/-- Errors thrown by PostgresQueueRepository.nack (PgQueueErrors.ts). -/
inductive NackError where
  | messageNotFound (id : Nat)
  | invalidMessageState (msg : String)
  | messageRaceCondition (id : Nat)
  deriving DecidableEq, Repr

/-- PostgresQueueRepository.nack, with the point read (findById) evaluated on
`dbRead` and the guarded UPDATE evaluated on `dbUpd`; the two snapshots model
the interleaving window between the two statements (sequential nack takes
them equal).  Returns the thrown error or unit, together with the final
table state (the table is unchanged on every error path). -/
def nackAt (now id : Nat) (errMsg : String) (dbRead dbUpd : List Row) :
    Except NackError Unit × List Row :=
  match findById id dbRead with
  | none => (.error (.messageNotFound id), dbUpd)
  | some m =>
    match markAsFailed now errMsg m with
    | .error (.invalidState s) => (.error (.invalidMessageState s), dbUpd)
    | .error (.validation s) => (.error (.invalidMessageState s), dbUpd)
    | .ok m1 =>
      if dbUpd.filter (fun x => decide (x.id = id ∧ x.status = .processing)) = [] then
        (.error (.messageRaceCondition id), dbUpd)
      else
        (.ok (),
         dbUpd.map (fun x =>
           if x.id = id ∧ x.status = .processing then
             { x with status := m1.status, retryCount := m1.retryCount,
                      lastError := m1.lastError, nextRetryAt := m1.nextRetryAt,
                      updatedAt := now }
           else x))

/-- Sequential nack: both statements see the same table state. -/
def nack (now id : Nat) (errMsg : String) (db : List Row) :
    Except NackError Unit × List Row :=
  nackAt now id errMsg db db

theorem findById_mem {id : Nat} {db : List Row} {m : Row}
    (h : findById id db = some m) : m ∈ db := by
  induction db with
  | nil => simp [findById] at h
  | cons r rs ih =>
    by_cases hid : r.id = id
    · simp [findById, hid] at h
      simp [h]
    · simp [findById, hid] at h
      exact List.mem_cons_of_mem _ (ih h)

theorem findById_id {id : Nat} {db : List Row} {m : Row}
    (h : findById id db = some m) : m.id = id := by
  induction db with
  | nil => simp [findById] at h
  | cons r rs ih =>
    by_cases hid : r.id = id
    · simp [findById, hid] at h
      rw [← h]; exact hid
    · simp [findById, hid] at h
      exact ih h

/-- Updating rows by a predicate that the first id-match satisfies updates the
first id-match in place, so findById on the updated table returns the image. -/
theorem findById_map_update {id : Nat} {db : List Row} {m : Row}
    (f : Row → Row) (p : Row → Prop) [DecidablePred p]
    (hf : ∀ x, (f x).id = x.id)
    (h : findById id db = some m) (hp : p m) :
    findById id (db.map (fun x => if p x then f x else x)) = some (f m) := by
  induction db with
  | nil => simp [findById] at h
  | cons r rs ih =>
    by_cases hid : r.id = id
    · simp [findById, hid] at h
      subst h
      simp [findById, hp, hf, hid]
    · simp [findById, hid] at h
      by_cases hpr : p r
      · simp [findById, hpr, hf, hid, ih h]
      · simp [findById, hpr, hid, ih h]

/-- A sample row used by concrete witnesses: a PROCESSING message with
retryCount 0 and maxRetries 3. -/
def sampleRow : Row :=
  { id := 1, msgType := "t", payload := "p", status := .processing,
    priority := 5, retryCount := 0, maxRetries := 3, lastError := none,
    nextRetryAt := none, createdAt := 0, updatedAt := 0 }

/-- Claim C1: nacking a message whose row is in status PROCESSING increments
retryCount by exactly one; if the new retryCount is strictly greater than
maxRetries the status becomes DEAD_LETTER and nextRetryAt is cleared,
otherwise the status becomes FAILED and nextRetryAt is now plus
min(2^(retryCount-1) seconds, 60 seconds). -/
theorem nack_processing_contract (now id : Nat) (errMsg : String)
    (db : List Row) (m : Row)
    (hfind : findById id db = some m) (hst : m.status = .processing) :
    (nack now id errMsg db).1 = .ok () ∧
    ∃ m1, findById id (nack now id errMsg db).2 = some m1 ∧
      m1.retryCount = m.retryCount + 1 ∧ m1.lastError = some errMsg ∧
      (m.maxRetries < m.retryCount + 1 →
          m1.status = .deadLetter ∧ m1.nextRetryAt = none) ∧
      (m.retryCount + 1 ≤ m.maxRetries →
          m1.status = .failed ∧
          m1.nextRetryAt = some (now + 1000 * min (2 ^ m.retryCount) 60)) := by
  have hmem := findById_mem hfind
  have hid := findById_id hfind
  have hfilter :
      ¬ db.filter (fun x => decide (x.id = id ∧ x.status = MessageStatus.processing)) = [] :=
    List.ne_nil_of_mem (List.mem_filter.mpr ⟨hmem, by simp [hid, hst]⟩)
  by_cases hrc : m.maxRetries < m.retryCount + 1
  · have hkey : nack now id errMsg db =
        (.ok (), db.map (fun x =>
          if x.id = id ∧ x.status = MessageStatus.processing then
            { x with status := MessageStatus.deadLetter, retryCount := m.retryCount + 1, lastError := some errMsg, nextRetryAt := none, updatedAt := now }
          else x)) := by
      simp [nack, nackAt, hfind, markAsFailed, hst, hrc, hfilter]
      exact ⟨m, hmem, hid, hst⟩
    refine ⟨by rw [hkey], ?_⟩
    refine ⟨({ m with status := MessageStatus.deadLetter, retryCount := m.retryCount + 1, lastError := some errMsg, nextRetryAt := none, updatedAt := now }), ?_, by simp, by simp, by simp, ?_⟩
    · rw [hkey]
      exact findById_map_update _ _ (fun x => rfl) hfind ⟨hid, hst⟩
    · intro hle
      omega
  · have hkey : nack now id errMsg db =
        (.ok (), db.map (fun x =>
          if x.id = id ∧ x.status = MessageStatus.processing then
            { x with status := MessageStatus.failed, retryCount := m.retryCount + 1, lastError := some errMsg, nextRetryAt := some (calculateNextRetryAt now (m.retryCount + 1)), updatedAt := now }
          else x)) := by
      simp [nack, nackAt, hfind, markAsFailed, hst, hrc, hfilter]
      exact ⟨m, hmem, hid, hst⟩
    refine ⟨by rw [hkey], ?_⟩
    refine ⟨({ m with status := MessageStatus.failed, retryCount := m.retryCount + 1, lastError := some errMsg, nextRetryAt := some (calculateNextRetryAt now (m.retryCount + 1)), updatedAt := now }), ?_, by simp, by simp, ?_, ?_⟩
    · rw [hkey]
      exact findById_map_update _ _ (fun x => rfl) hfind ⟨hid, hst⟩
    · intro hgt
      omega
    · intro hle
      simp [calculateNextRetryAt]

/-- Witness for C1 at a concrete PROCESSING row. -/
theorem nack_processing_contract_witness :
    (nack 5000 1 "boom" [sampleRow]).1 = .ok () ∧
    ∃ m1, findById 1 (nack 5000 1 "boom" [sampleRow]).2 = some m1 ∧
      m1.retryCount = sampleRow.retryCount + 1 ∧ m1.lastError = some "boom" ∧
      (sampleRow.maxRetries < sampleRow.retryCount + 1 →
          m1.status = .deadLetter ∧ m1.nextRetryAt = none) ∧
      (sampleRow.retryCount + 1 ≤ sampleRow.maxRetries →
          m1.status = .failed ∧
          m1.nextRetryAt = some (5000 + 1000 * min (2 ^ sampleRow.retryCount) 60)) :=
  nack_processing_contract 5000 1 "boom" [sampleRow] sampleRow (by decide) (by decide)

/-- The ORDER BY priority ASC, created_at ASC comparison used by the claim
subselect in PostgresQueueRepository.dequeue: `a` sorts strictly before `b`. -/
def beatsP (a b : Row) : Prop :=
  a.priority < b.priority ∨ (a.priority = b.priority ∧ a.createdAt < b.createdAt)

instance : DecidablePred fun p : Row × Row => beatsP p.1 p.2 := by
  intro p
  unfold beatsP
  infer_instance

instance beatsPDec (a b : Row) : Decidable (beatsP a b) := by
  unfold beatsP
  infer_instance

theorem beatsP_irrefl (a : Row) : ¬ beatsP a a := by
  unfold beatsP
  omega

theorem beatsP_asymm {a b : Row} (h : beatsP a b) : ¬ beatsP b a := by
  unfold beatsP at h ⊢
  omega

theorem beatsP_not_trans {x b r : Row} (hxb : ¬ beatsP x b) (hbr : ¬ beatsP b r) :
    ¬ beatsP x r := by
  unfold beatsP at hxb hbr ⊢
  omega

/-- ORDER BY priority ASC, created_at ASC ... LIMIT 1: the earliest-sorting
row of the list (keeping the earlier listed row on ties, as SQL leaves
tie order unspecified). -/
def pickMin : List Row → Option Row
  | [] => none
  | r :: rs =>
    match pickMin rs with
    | none => some r
    | some b => if beatsP b r then some b else some r

theorem pickMin_mem {l : List Row} {r : Row} (h : pickMin l = some r) : r ∈ l := by
  induction l with
  | nil => simp [pickMin] at h
  | cons a rs ih =>
    unfold pickMin at h
    cases hrec : pickMin rs with
    | none =>
      rw [hrec] at h
      simp at h
      simp [h]
    | some b =>
      rw [hrec] at h
      by_cases hb : beatsP b a
      · simp [hb] at h
        subst h
        exact List.mem_cons_of_mem _ (ih hrec)
      · simp [hb] at h
        simp [h]

theorem pickMin_eq_none {l : List Row} (h : pickMin l = none) : l = [] := by
  cases l with
  | nil => rfl
  | cons a rs =>
    exfalso
    unfold pickMin at h
    cases hc : pickMin rs <;> rw [hc] at h <;> simp at h
    split at h <;> simp at h

theorem pickMin_min {l : List Row} : ∀ {r : Row}, pickMin l = some r →
    ∀ x ∈ l, ¬ beatsP x r := by
  induction l with
  | nil =>
    intro r h
    simp [pickMin] at h
  | cons a rs ih =>
    intro r h
    unfold pickMin at h
    cases hrec : pickMin rs with
    | none =>
      rw [hrec] at h
      simp at h
      subst h
      intro x hx
      rcases List.mem_cons.mp hx with hxa | hxs
      · subst hxa
        exact beatsP_irrefl _
      · rw [pickMin_eq_none hrec] at hxs
        simp at hxs
    | some b =>
      rw [hrec] at h
      by_cases hb : beatsP b a
      · simp [hb] at h
        subst h
        intro x hx
        rcases List.mem_cons.mp hx with hxa | hxs
        · subst hxa
          exact beatsP_asymm hb
        · exact ih hrec x hxs
      · simp [hb] at h
        subst h
        intro x hx
        rcases List.mem_cons.mp hx with hxa | hxs
        · subst hxa
          exact beatsP_irrefl _
        · exact beatsP_not_trans (ih hrec x hxs) hb


/-- The claim subselect: SELECT id FROM table WHERE status = PENDING
ORDER BY priority ASC, created_at ASC LIMIT 1. -/
def selectNextPending (db : List Row) : Option Row :=
  pickMin (db.filter (fun r => decide (r.status = .pending)))

/-- PostgresQueueRepository.dequeue: one UPDATE statement that sets the
selected PENDING row to PROCESSING, bumps updated_at to NOW(), and returns
the updated row (RETURNING *); when the subselect finds no row the table is
unchanged and none is returned. -/
def dequeue (now : Nat) (db : List Row) : Option Row × List Row :=
  match selectNextPending db with
  | none => (none, db)
  | some r =>
    (some { r with status := .processing, updatedAt := now },
     db.map (fun x =>
       if x.id = r.id then { x with status := .processing, updatedAt := now }
       else x))

theorem map_upd_eq_self {l : List Row} {p : Row → Prop} [DecidablePred p]
    {f : Row → Row} (h : ∀ x ∈ l, ¬ p x) :
    l.map (fun x => if p x then f x else x) = l := by
  induction l with
  | nil => rfl
  | cons a rs ih =>
    have ha : ¬ p a := h a (List.mem_cons_self a rs)
    simp only [List.map_cons, if_neg ha]
    rw [ih (fun x hx => h x (List.mem_cons_of_mem a hx))]

/-- Claim C2: dequeue claims at most one PENDING row, minimal in the
(priority ASC, created_at ASC) order; that row alone transitions to
PROCESSING with updated_at bumped and is returned fully populated; when no
PENDING row exists, none is returned and no row changes. -/
theorem dequeue_contract (now : Nat) (db : List Row)
    (hNodup : (db.map Row.id).Nodup) :
    ((dequeue now db).1 = none →
        (dequeue now db).2 = db ∧ ∀ x ∈ db, x.status ≠ .pending) ∧
    (∀ r1, (dequeue now db).1 = some r1 →
        ∃ r, r ∈ db ∧ r.status = .pending ∧
          (∀ x ∈ db, x.status = .pending → ¬ beatsP x r) ∧
          r1 = { r with status := .processing, updatedAt := now } ∧
          ∃ pre post, db = pre ++ r :: post ∧
            (dequeue now db).2 = pre ++ r1 :: post) := by
  cases hsel : selectNextPending db with
  | none =>
    have hfil : db.filter (fun r => decide (r.status = .pending)) = [] :=
      pickMin_eq_none hsel
    constructor
    · intro _
      refine ⟨by simp [dequeue, hsel], ?_⟩
      intro x hx hp
      have : x ∈ db.filter (fun r => decide (r.status = .pending)) :=
        List.mem_filter.mpr ⟨hx, by simp [hp]⟩
      rw [hfil] at this
      exact (List.not_mem_nil x) this
    · intro r1 h1
      simp [dequeue, hsel] at h1
  | some r =>
    have hmemf := pickMin_mem hsel
    have hmem : r ∈ db := (List.mem_filter.mp hmemf).1
    have hpend : r.status = .pending := by
      have := (List.mem_filter.mp hmemf).2
      simpa using this
    have hmin : ∀ x ∈ db, x.status = .pending → ¬ beatsP x r := by
      intro x hx hp
      exact pickMin_min hsel x (List.mem_filter.mpr ⟨hx, by simp [hp]⟩)
    constructor
    · intro h0
      simp [dequeue, hsel] at h0
    · intro r1 h1
      have hr1 : r1 = { r with status := .processing, updatedAt := now } := by
        simp [dequeue, hsel] at h1
        exact h1.symm
      obtain ⟨pre, post, hsplit⟩ := List.append_of_mem hmem
      refine ⟨r, hmem, hpend, hmin, hr1, pre, post, hsplit, ?_⟩
      have hids : ¬ r.id ∈ pre.map Row.id ∧ ¬ r.id ∈ post.map Row.id := by
        rw [hsplit] at hNodup
        simp only [List.map_append, List.map_cons] at hNodup
        have h2 := List.nodup_append.mp hNodup
        refine ⟨fun hc => ?_, fun hc => ?_⟩
        · exact h2.2.2 hc (List.mem_cons_self _ _)
        · exact (List.nodup_cons.mp h2.2.1).1 hc
      have hpre : ∀ x ∈ pre, ¬ (x.id = r.id) := by
        intro x hx hc
        exact hids.1 (hc ▸ List.mem_map_of_mem Row.id hx)
      have hpost : ∀ x ∈ post, ¬ (x.id = r.id) := by
        intro x hx hc
        exact hids.2 (hc ▸ List.mem_map_of_mem Row.id hx)
      have : (dequeue now db).2 = db.map (fun x =>
          if x.id = r.id then { x with status := .processing, updatedAt := now }
          else x) := by
        simp [dequeue, hsel]
      rw [this, hsplit]
      rw [List.map_append, List.map_cons]
      rw [map_upd_eq_self hpre, map_upd_eq_self hpost]
      simp [hr1]

/-- A second sample row: PENDING, lower urgency than sampleRow2b. -/
def sampleRow2a : Row :=
  { id := 2, msgType := "t", payload := "p", status := .pending,
    priority := 5, retryCount := 0, maxRetries := 3, lastError := none,
    nextRetryAt := none, createdAt := 10, updatedAt := 10 }

/-- A third sample row: PENDING, most urgent priority. -/
def sampleRow2b : Row :=
  { id := 3, msgType := "t", payload := "p", status := .pending,
    priority := 1, retryCount := 0, maxRetries := 3, lastError := none,
    nextRetryAt := none, createdAt := 20, updatedAt := 20 }

/-- Witness for C2 on a concrete two-row queue. -/
theorem dequeue_contract_witness :
    ((dequeue 99 [sampleRow2a, sampleRow2b]).1 = none →
        (dequeue 99 [sampleRow2a, sampleRow2b]).2 = [sampleRow2a, sampleRow2b] ∧
        ∀ x ∈ [sampleRow2a, sampleRow2b], x.status ≠ .pending) ∧
    (∀ r1, (dequeue 99 [sampleRow2a, sampleRow2b]).1 = some r1 →
        ∃ r, r ∈ [sampleRow2a, sampleRow2b] ∧ r.status = .pending ∧
          (∀ x ∈ [sampleRow2a, sampleRow2b], x.status = .pending → ¬ beatsP x r) ∧
          r1 = { r with status := .processing, updatedAt := 99 } ∧
          ∃ pre post, [sampleRow2a, sampleRow2b] = pre ++ r :: post ∧
            (dequeue 99 [sampleRow2a, sampleRow2b]).2 = pre ++ r1 :: post) :=
  dequeue_contract 99 [sampleRow2a, sampleRow2b] (by decide)

/-- PostgresQueueRepository.ack: UPDATE table SET status = COMPLETED,
updated_at = NOW() WHERE id = $2 AND status = PROCESSING.  The adapter never
inspects rowCount: a zero-row match returns silently, which the totality of
this function models. -/
def ack (now id : Nat) (db : List Row) : List Row :=
  db.map (fun x =>
    if x.id = id ∧ x.status = .processing then
      { x with status := .completed, updatedAt := now }
    else x)

theorem findById_eq_none {id : Nat} {db : List Row}
    (h : findById id db = none) : ∀ x ∈ db, x.id ≠ id := by
  induction db with
  | nil => simp
  | cons r rs ih =>
    by_cases hid : r.id = id
    · simp [findById, hid] at h
    · simp [findById, hid] at h
      intro x hx
      rcases List.mem_cons.mp hx with hxa | hxs
      · subst hxa
        exact hid
      · exact ih h x hxs

theorem findById_unique {id : Nat} {db : List Row} {m : Row}
    (hN : (db.map Row.id).Nodup) (h : findById id db = some m) :
    ∀ x ∈ db, x.id = id → x = m := by
  induction db with
  | nil => simp
  | cons r rs ih =>
    have hN1 : r.id ∉ List.map Row.id rs ∧ (List.map Row.id rs).Nodup := by
      rw [List.map_cons] at hN
      exact List.nodup_cons.mp hN
    by_cases hid : r.id = id
    · simp [findById, hid] at h
      subst h
      intro x hx hxid
      rcases List.mem_cons.mp hx with hxa | hxs
      · exact hxa
      · exfalso
        apply hN1.1
        have hxr : x.id = r.id := by rw [hxid, hid]
        rw [← hxr]
        exact List.mem_map_of_mem Row.id hxs
    · simp [findById, hid] at h
      intro x hx hxid
      rcases List.mem_cons.mp hx with hxa | hxs
      · exact absurd (hxa ▸ hxid) hid
      · exact ih hN1.2 h x hxs hxid

/-- Claim C7: acking a PROCESSING row transitions it to COMPLETED with
updated_at bumped; when the row is no longer PROCESSING (or absent) the
update matches zero rows and ack leaves every row unchanged, returning
silently (ack is total and throws nothing). -/
theorem ack_contract (now id : Nat) (db : List Row)
    (hN : (db.map Row.id).Nodup) :
    (∀ m, findById id db = some m →
      (m.status = .processing →
        ∃ pre post, db = pre ++ m :: post ∧
          ack now id db =
            pre ++ { m with status := .completed, updatedAt := now } :: post) ∧
      (m.status ≠ .processing → ack now id db = db)) ∧
    (findById id db = none → ack now id db = db) := by
  constructor
  · intro m hfind
    have hmem := findById_mem hfind
    have hid := findById_id hfind
    constructor
    · intro hst
      obtain ⟨pre, post, hsplit⟩ := List.append_of_mem hmem
      refine ⟨pre, post, hsplit, ?_⟩
      have hids : ¬ m.id ∈ pre.map Row.id ∧ ¬ m.id ∈ post.map Row.id := by
        rw [hsplit] at hN
        simp only [List.map_append, List.map_cons] at hN
        have h2 := List.nodup_append.mp hN
        refine ⟨fun hc => ?_, fun hc => ?_⟩
        · exact h2.2.2 hc (List.mem_cons_self _ _)
        · exact (List.nodup_cons.mp h2.2.1).1 hc
      have hpre : ∀ x ∈ pre, ¬ (x.id = id ∧ x.status = .processing) := by
        intro x hx hc
        exact hids.1 ((hc.1.trans hid.symm) ▸ List.mem_map_of_mem Row.id hx)
      have hpost : ∀ x ∈ post, ¬ (x.id = id ∧ x.status = .processing) := by
        intro x hx hc
        exact hids.2 ((hc.1.trans hid.symm) ▸ List.mem_map_of_mem Row.id hx)
      unfold ack
      rw [hsplit, List.map_append, List.map_cons]
      rw [map_upd_eq_self hpre, map_upd_eq_self hpost]
      simp [hid, hst]
    · intro hst
      have hall : ∀ x ∈ db, ¬ (x.id = id ∧ x.status = .processing) := by
        intro x hx hc
        have := findById_unique hN hfind x hx hc.1
        exact hst (this ▸ hc.2)
      exact map_upd_eq_self hall
  · intro hnone
    have hall : ∀ x ∈ db, ¬ (x.id = id ∧ x.status = .processing) := by
      intro x hx hc
      exact findById_eq_none hnone x hx hc.1
    exact map_upd_eq_self hall

/-- Witness for C7 on a one-row table holding a PROCESSING message. -/
theorem ack_contract_witness :
    (∀ m, findById 1 [sampleRow] = some m →
      (m.status = .processing →
        ∃ pre post, [sampleRow] = pre ++ m :: post ∧
          ack 7 1 [sampleRow] =
            pre ++ { m with status := .completed, updatedAt := 7 } :: post) ∧
      (m.status ≠ .processing → ack 7 1 [sampleRow] = [sampleRow])) ∧
    (findById 1 [sampleRow] = none → ack 7 1 [sampleRow] = [sampleRow]) :=
  ack_contract 7 1 [sampleRow] (by decide)

theorem markAsFailed_ok_status {now : Nat} {errMsg : String} {m m1 : Row}
    (h : markAsFailed now errMsg m = .ok m1) : m.status = .processing := by
  by_contra hc
  simp [markAsFailed, hc] at h

/-- Claim C10: nacking an id with no row performs the point read first and
throws MessageNotFoundError with the table untouched; the
MessageRaceConditionError is reserved for rows that the read found in
PROCESSING but that are no longer PROCESSING when the guarded update runs. -/
theorem nack_notfound_and_race (now id : Nat) (errMsg : String) :
    (∀ db, findById id db = none →
        nack now id errMsg db = (.error (.messageNotFound id), db)) ∧
    (∀ dbRead dbUpd out,
        nackAt now id errMsg dbRead dbUpd = (.error (.messageRaceCondition id), out) →
        out = dbUpd ∧
        ∃ m, findById id dbRead = some m ∧ m.status = .processing ∧
          ∀ x ∈ dbUpd, x.id = id → x.status ≠ .processing) := by
  constructor
  · intro db h
    simp [nack, nackAt, h]
  · intro dbRead dbUpd out h
    unfold nackAt at h
    split at h
    next => simp at h
    next m hf2 =>
      split at h
      next => simp at h
      next => simp at h
      next m1 hmf =>
        split at h
        next hfil =>
          simp only [Prod.mk.injEq] at h
          refine ⟨h.2.symm, m, hf2, markAsFailed_ok_status hmf, ?_⟩
          intro x hx hxid hxs
          have hmemf : x ∈ dbUpd.filter
              (fun x => decide (x.id = id ∧ x.status = MessageStatus.processing)) :=
            List.mem_filter.mpr ⟨hx, by simp [hxid, hxs]⟩
          rw [hfil] at hmemf
          exact (List.not_mem_nil x) hmemf
        next => simp at h

/-- A completed copy of sampleRow, modelling a row reclaimed between the
nack point read and the guarded update. -/
def sampleRowDone : Row :=
  { sampleRow with status := .completed }

/-- Witness for C10: a missing id throws not-found with the table unchanged,
and a concrete read/update race yields the race error on a row that the
read saw in PROCESSING. -/
theorem nack_notfound_and_race_witness :
    nack 4 9 "e" [sampleRow] = (.error (.messageNotFound 9), [sampleRow]) ∧
    ([sampleRowDone] = [sampleRowDone] ∧
      ∃ m, findById 1 [sampleRow] = some m ∧ m.status = .processing ∧
        ∀ x ∈ [sampleRowDone], x.id = 1 → x.status ≠ .processing) :=
  ⟨(nack_notfound_and_race 4 9 "e").1 [sampleRow] (by decide),
   (nack_notfound_and_race 4 1 "e").2 [sampleRow] [sampleRowDone] [sampleRowDone]
     (by rfl)⟩

/-- WHERE status = FAILED AND next_retry_at <= NOW()
(PostgresQueueRepository.resetRetryableMessages); a NULL next_retry_at never
satisfies the comparison. -/
def retryDue (now : Nat) (x : Row) : Bool :=
  match x.nextRetryAt with
  | some t => decide (x.status = .failed) && decide (t ≤ now)
  | none => false

/-- The SET clause of resetRetryableMessages: status = PENDING,
next_retry_at = NULL, updated_at = NOW(). -/
def promoteRow (now : Nat) (x : Row) : Row :=
  { x with status := .pending, nextRetryAt := none, updatedAt := now }

/-- PostgresQueueRepository.resetRetryableMessages: promote every due FAILED
row back to PENDING, clearing next_retry_at; returns the affected count. -/
def resetRetryableMessages (now : Nat) (db : List Row) : Nat × List Row :=
  ((db.filter (retryDue now)).length,
   db.map (fun x => if retryDue now x then promoteRow now x else x))

/-- PostgresQueueRepository.retry: UPDATE ... SET status = PENDING,
retry_count = 0, last_error = NULL, next_retry_at = NULL, updated_at = NOW()
WHERE id = $2.  The per-row update coincides with QueueMessage.retry. -/
def retryById (now id : Nat) (db : List Row) : List Row :=
  db.map (fun x => if x.id = id then retryEntity now x else x)

/-- The per-message operations named by the invariant claim: the entity
transitions plus the two storage promotions restricted to one row.  An
entity transition whose state guard rejects throws and leaves the row
unmodified, which getD models. -/
inductive MsgOp where
  | opMarkProcessing (now : Nat)
  | opMarkCompleted (now : Nat)
  | opMarkFailed (now : Nat) (errMsg : String)
  | opResetPending (now : Nat)
  | opManualRetry (now : Nat)
  | opPromoteRetryable (now : Nat)
  deriving Repr

def applyOp (m : Row) : MsgOp → Row
  | .opMarkProcessing now => ((markAsProcessing now m).toOption).getD m
  | .opMarkCompleted now => ((markAsCompleted now m).toOption).getD m
  | .opMarkFailed now errMsg => ((markAsFailed now errMsg m).toOption).getD m
  | .opResetPending now => ((resetToPending now m).toOption).getD m
  | .opManualRetry now => retryEntity now m
  | .opPromoteRetryable now => if retryDue now m then promoteRow now m else m

def applyOps (m : Row) (ops : List MsgOp) : Row :=
  ops.foldl applyOp m

/-- Invariant (a) of the data model: next_retry_at is non-null exactly when
the status is FAILED. -/
def retryInvariant (m : Row) : Prop :=
  m.nextRetryAt ≠ none ↔ m.status = .failed

theorem retryInvariant_applyOp (op : MsgOp) (m : Row)
    (h : retryInvariant m) : retryInvariant (applyOp m op) := by
  have hnone : m.status ≠ .failed → m.nextRetryAt = none := by
    intro hs
    by_contra hc
    exact hs (h.mp hc)
  cases op with
  | opMarkProcessing now =>
    by_cases hs : m.status = MessageStatus.pending
    · have hn : m.nextRetryAt = none := hnone (by simp [hs])
      simp [applyOp, markAsProcessing, hs, retryInvariant, hn, Except.toOption]
    · simpa [applyOp, markAsProcessing, hs, Except.toOption] using h
  | opMarkCompleted now =>
    by_cases hs : m.status = MessageStatus.processing
    · have hn : m.nextRetryAt = none := hnone (by simp [hs])
      simp [applyOp, markAsCompleted, hs, retryInvariant, hn, Except.toOption]
    · simpa [applyOp, markAsCompleted, hs, Except.toOption] using h
  | opMarkFailed now errMsg =>
    by_cases hs : m.status = MessageStatus.processing
    · by_cases hrc : m.maxRetries < m.retryCount + 1
      · simp [applyOp, markAsFailed, hs, hrc, retryInvariant, Except.toOption]
      · simp [applyOp, markAsFailed, hs, hrc, retryInvariant, Except.toOption]
    · simpa [applyOp, markAsFailed, hs, Except.toOption] using h
  | opResetPending now =>
    by_cases hs : m.status = MessageStatus.failed
    · simp [applyOp, resetToPending, hs, retryInvariant, Except.toOption]
    · simpa [applyOp, resetToPending, hs, Except.toOption] using h
  | opManualRetry now =>
    simp [applyOp, retryEntity, retryInvariant]
  | opPromoteRetryable now =>
    by_cases hd : retryDue now m = true
    · simp [applyOp, hd, promoteRow, retryInvariant]
    · simpa [applyOp, hd] using h

/-- Claim C9: starting from QueueMessage.create, every sequence of entity
transitions and storage promotions preserves the invariant that
next_retry_at is non-null if and only if the status is FAILED. -/
theorem create_retry_invariant (id : Nat) (ty payload : String)
    (prio maxR now : Nat) (m0 : Row)
    (hcreate : QueueMessage.create id ty payload prio maxR now = .ok m0)
    (ops : List MsgOp) : retryInvariant (applyOps m0 ops) := by
  have h0 : retryInvariant m0 := by
    unfold QueueMessage.create at hcreate
    by_cases h1 : jsTrim ty = ""
    · simp [h1] at hcreate
    · by_cases h2 : 255 < (jsTrim ty).length
      · simp [h1, h2] at hcreate
      · by_cases h3 : maxR < 1
        · simp [h1, h2, h3] at hcreate
        · simp [h1, h2, h3] at hcreate
          rw [← hcreate]
          simp [retryInvariant]
  clear hcreate
  induction ops generalizing m0 with
  | nil => exact h0
  | cons op rest ih => exact ih _ (retryInvariant_applyOp op m0 h0)

/-- The freshly created row used by the C9 witness. -/
def lifecycleRow : Row :=
  { id := 1, msgType := "t", payload := "p", status := .pending,
    priority := 5, retryCount := 0, maxRetries := 3, lastError := none,
    nextRetryAt := none, createdAt := 0, updatedAt := 0 }

/-- Witness for C9: a concrete creation followed by a concrete lifecycle
(claim, fail, promote, claim again, complete). -/
theorem create_retry_invariant_witness :
    retryInvariant (applyOps lifecycleRow
      [.opMarkProcessing 1, .opMarkFailed 2 "e", .opPromoteRetryable 5000,
       .opMarkProcessing 5001, .opMarkCompleted 5002]) :=
  create_retry_invariant 1 "t" "p" 5 3 0 lifecycleRow
    (by simp [QueueMessage.create, jsTrim, lifecycleRow]; decide)
    [.opMarkProcessing 1, .opMarkFailed 2 "e", .opPromoteRetryable 5000,
     .opMarkProcessing 5001, .opMarkCompleted 5002]

/-- The value thrown to the caller of PgQueue.withTransaction: either the
caller error rethrown bare (which the catch block never does) or a
TransactionError wrapping a cause, as PgQueueErrors.TransactionError. -/
inductive TxThrown where
  | callerError (e : String)
  | transactionError (msg : String) (cause : String)
  deriving DecidableEq, Repr

/-- An error event emitted on the PgQueue EventEmitter during a transaction. -/
inductive TxEvent where
  | errorEvent (e : TxThrown)
  deriving DecidableEq, Repr

/-- The observable outcome of one PgQueue.withTransaction call. -/
structure TxOutcome (T : Type) where
  result : Except TxThrown T
  committed : Bool
  rollbackAttempted : Bool
  events : List TxEvent

/-- PgQueue.withTransaction: BEGIN, run the callback, COMMIT on success;
on any error (callback or COMMIT) attempt ROLLBACK, emit an error event if
the rollback itself fails, and throw TransactionError with message
"Transaction failed" and the original error as cause.  The callback outcome
and the COMMIT / ROLLBACK failures are inputs to the model. -/
def withTransaction {T : Type} (cb : Except String T)
    (commitError rollbackError : Option String) : TxOutcome T :=
  match cb with
  | .ok t =>
    match commitError with
    | none =>
      { result := .ok t, committed := true, rollbackAttempted := false,
        events := [] }
    | some ce =>
      { result := .error (.transactionError "Transaction failed" ce),
        committed := false, rollbackAttempted := true,
        events :=
          match rollbackError with
          | some re =>
            [.errorEvent (.transactionError "Failed to rollback transaction" re)]
          | none => [] }
  | .error e =>
    { result := .error (.transactionError "Transaction failed" e),
      committed := false, rollbackAttempted := true,
      events :=
        match rollbackError with
        | some re =>
          [.errorEvent (.transactionError "Failed to rollback transaction" re)]
        | none => [] }

/-- Counterexample to C4 as stated: when the callback raises "boom" the
caller receives TransactionError("Transaction failed", cause "boom"), not
the bare original error. -/
theorem withTransaction_wraps_caller_error :
    ¬ ((withTransaction (Except.error "boom" : Except String Unit) none none).result =
        .error (.callerError "boom")) ∧
    (withTransaction (Except.error "boom" : Except String Unit) none none).result =
      .error (.transactionError "Transaction failed" "boom") := by
  constructor
  · intro h
    simp [withTransaction] at h
  · rfl

/-- Claim C4 (amended): when the callback raises E the transaction is not
committed, a rollback is attempted, the thrown error is a TransactionError
whose cause is exactly E (E is preserved in the cause chain, never
replaced); if the rollback also fails, an error event about the failed
rollback is emitted and the caller still receives the TransactionError
caused by E. -/
theorem withTransaction_rollback_contract {T : Type} (e : String)
    (rollbackError : Option String) (commitError : Option String)
    (cb : Except String T) (hcb : cb = .error e) :
    (withTransaction cb commitError rollbackError).result =
        .error (.transactionError "Transaction failed" e) ∧
    (withTransaction cb commitError rollbackError).committed = false ∧
    (withTransaction cb commitError rollbackError).rollbackAttempted = true ∧
    (∀ re, rollbackError = some re →
      (withTransaction cb commitError rollbackError).events =
        [.errorEvent (.transactionError "Failed to rollback transaction" re)]) ∧
    (rollbackError = none →
      (withTransaction cb commitError rollbackError).events = []) := by
  subst hcb
  refine ⟨rfl, rfl, rfl, ?_, ?_⟩
  · intro re hre
    subst hre
    rfl
  · intro hre
    subst hre
    rfl

/-- Witness for the amended C4: callback error "boom" with a failing
rollback "rb down". -/
theorem withTransaction_rollback_contract_witness :
    (withTransaction (Except.error "boom" : Except String Unit) none (some "rb down")).result =
        .error (.transactionError "Transaction failed" "boom") ∧
    (withTransaction (Except.error "boom" : Except String Unit) none (some "rb down")).committed = false ∧
    (withTransaction (Except.error "boom" : Except String Unit) none (some "rb down")).rollbackAttempted = true ∧
    (∀ re, (some "rb down" : Option String) = some re →
      (withTransaction (Except.error "boom" : Except String Unit) none (some "rb down")).events =
        [.errorEvent (.transactionError "Failed to rollback transaction" re)]) ∧
    ((some "rb down" : Option String) = none →
      (withTransaction (Except.error "boom" : Except String Unit) none (some "rb down")).events = []) :=
  withTransaction_rollback_contract "boom" (some "rb down") none (.error "boom") rfl

/-- One row of the idempotency_keys table
(IdempotencyHandler.initialize): key is primary, result nullable JSONB,
expires_at mandatory. -/
structure IdemRow where
  idempotencyKey : String
  result : Option String
  createdAt : Nat
  expiresAt : Nat
  deriving DecidableEq, Repr

/-- A JavaScript error value as the catch block of IdempotencyHandler.execute
sees it: its message and, when it is a pg DatabaseError, its Postgres error
code (23505 marks a unique-constraint violation). -/
structure JsError where
  message : String
  code : Option String
  deriving DecidableEq, Repr

/-- The value thrown to the caller of IdempotencyHandler.execute: either the
operation's own error rethrown bare (which the catch block never does) or
one of the wrapped errors of PgQueueErrors.ts. -/
inductive IdemThrown where
  | opError (e : JsError)
  | idempotencyClaimError (key : String) (cause : JsError)
  | idempotencyKeyInProcessError (key : String)
  | uniqueConstraintError (key : String)
  deriving DecidableEq, Repr

/-- The observable outcome of one IdempotencyHandler.execute call:
the returned (isFirstExecution, cachedResult) pair or the thrown error, the
final table state, and whether the caller operation ran. -/
structure ExecOutcome where
  result : Except IdemThrown (Bool × Option String)
  table : List IdemRow
  opRan : Bool

/-- Whether the claim INSERT hits the primary-key uniqueness constraint:
a row with the key exists, expired or not. -/
def keyExists (key : String) (tbl : List IdemRow) : Bool :=
  tbl.any (fun r => decide (r.idempotencyKey = key))

/-- The duplicate-key branch of the catch block: SELECT result FROM table
WHERE idempotency_key = $1 AND expires_at > NOW(); return the cached
result, raise InProcess on a null result, or raise UniqueConstraint when no
unexpired row remains.  `tbl` is the table state the SELECT sees and
`opRan` records whether the operation had already run when the branch was
entered. -/
def duplicateKeyPath (now : Nat) (key : String) (tbl : List IdemRow)
    (opRan : Bool) : ExecOutcome :=
  match tbl.find? (fun r => decide (r.idempotencyKey = key) && decide (now < r.expiresAt)) with
  | some row =>
    match row.result with
    | none =>
      { result := .error (.idempotencyKeyInProcessError key), table := tbl,
        opRan := opRan }
    | some r =>
      { result := .ok (false, some r), table := tbl, opRan := opRan }
  | none =>
    { result := .error (.uniqueConstraintError key), table := tbl,
      opRan := opRan }

/-- IdempotencyHandler.execute.  The claim INSERT stores (key, NULL result,
now + ttl*1000).  If it succeeds the operation runs; on success its result
is written back.  An operation error propagates into the same catch block
as insert failures, where its pg error code is compared against 23505: a
non-23505 error is wrapped as IdempotencyClaimError, while an error that
does carry code 23505 is treated as a duplicate key and takes the SELECT
branch over the post-insert table.  When the INSERT itself violates
uniqueness, the SELECT branch runs on the unchanged table. -/
def IdempotencyHandler.execute (now : Nat) (key : String) (ttlSeconds : Nat)
    (op : Except JsError String) (tbl : List IdemRow) : ExecOutcome :=
  if keyExists key tbl then
    duplicateKeyPath now key tbl false
  else
    let claimed : IdemRow :=
      { idempotencyKey := key, result := none, createdAt := now,
        expiresAt := now + ttlSeconds * 1000 }
    let tbl1 := tbl ++ [claimed]
    match op with
    | .ok r =>
      { result := .ok (true, some r),
        table := tbl1.map (fun x =>
          if x.idempotencyKey = key then { x with result := some r } else x),
        opRan := true }
    | .error e =>
      if e.code = some "23505" then duplicateKeyPath now key tbl1 true
      else
        { result := .error (.idempotencyClaimError key e), table := tbl1,
          opRan := true }

theorem find?_append_left_none {p : IdemRow → Bool} {l1 l2 : List IdemRow}
    (h : ∀ x ∈ l1, p x = false) : (l1 ++ l2).find? p = l2.find? p := by
  induction l1 with
  | nil => rfl
  | cons a rs ih =>
    have ha := h a (List.mem_cons_self a rs)
    rw [List.cons_append]
    simp only [List.find?, ha]
    exact ih (fun x hx => h x (List.mem_cons_of_mem a hx))

/-- Counterexample to C5 as stated: the first executor whose operation
raises the error "boom" does not see the bare operation error; it sees
IdempotencyClaimError wrapping it. -/
theorem execute_op_error_wrapped :
    ¬ ((IdempotencyHandler.execute 0 "k" 60
          (.error { message := "boom", code := none }) []).result =
        .error (.opError { message := "boom", code := none })) ∧
    (IdempotencyHandler.execute 0 "k" 60
        (.error { message := "boom", code := none }) []).result =
      .error (.idempotencyClaimError "k" { message := "boom", code := none }) := by
  constructor
  · intro h
    simp [IdempotencyHandler.execute, keyExists] at h
  · rfl

/-- Claim C5 (amended): when the first executor claims the key and the
operation raises E, the key's row remains claimed with result = null (and
expiry now + ttl seconds) and the operation did run; the caller never sees
E bare: when E's pg code is not 23505 the caller sees an
IdempotencyClaimError wrapping E as its cause, and when E itself carries
the unique-violation code 23505 the catch misroutes it to the duplicate-key
SELECT, which finds the freshly claimed null-result row (the ttl being
positive) and fails with IdempotencyKeyInProcessError. -/
theorem execute_op_error_contract (now : Nat) (key : String)
    (ttlSeconds : Nat) (e : JsError) (tbl : List IdemRow)
    (hfree : keyExists key tbl = false) (httl : 0 < ttlSeconds) :
    (IdempotencyHandler.execute now key ttlSeconds (.error e) tbl).opRan = true ∧
    (IdempotencyHandler.execute now key ttlSeconds (.error e) tbl).table =
      tbl ++ [{ idempotencyKey := key, result := none, createdAt := now,
                expiresAt := now + ttlSeconds * 1000 }] ∧
    (∀ x, ¬ (IdempotencyHandler.execute now key ttlSeconds (.error e) tbl).result =
        .error (.opError x)) ∧
    (¬ e.code = some "23505" →
      (IdempotencyHandler.execute now key ttlSeconds (.error e) tbl).result =
        .error (.idempotencyClaimError key e)) ∧
    (e.code = some "23505" →
      (IdempotencyHandler.execute now key ttlSeconds (.error e) tbl).result =
        .error (.idempotencyKeyInProcessError key)) := by
  have hnk : ∀ x ∈ tbl, ¬ x.idempotencyKey = key := by
    intro x hx hxk
    have hky : keyExists key tbl = true := by
      unfold keyExists
      rw [List.any_eq_true]
      exact ⟨x, hx, by simp [hxk]⟩
    rw [hfree] at hky
    exact Bool.false_ne_true hky
  have hall : ∀ x ∈ tbl,
      (fun r : IdemRow =>
        decide (r.idempotencyKey = key) && decide (now < r.expiresAt)) x = false := by
    intro x hx
    simp [hnk x hx]
  have hfind : (tbl ++ [({ idempotencyKey := key, result := none, createdAt := now, expiresAt := now + ttlSeconds * 1000 } : IdemRow)]).find? (fun r => decide (r.idempotencyKey = key) && decide (now < r.expiresAt)) = some ({ idempotencyKey := key, result := none, createdAt := now, expiresAt := now + ttlSeconds * 1000 } : IdemRow) := by
    rw [find?_append_left_none hall]
    simp only [List.find?]
    have : now < now + ttlSeconds * 1000 := by omega
    simp [this]
  by_cases hc : e.code = some "23505"
  · refine ⟨?_, ?_, ?_, ?_, ?_⟩
    · simp [IdempotencyHandler.execute, hfree, hc, duplicateKeyPath, hfind]
    · simp [IdempotencyHandler.execute, hfree, hc, duplicateKeyPath, hfind]
    · intro x h
      simp [IdempotencyHandler.execute, hfree, hc, duplicateKeyPath, hfind] at h
    · intro hne
      exact absurd hc hne
    · intro _
      simp [IdempotencyHandler.execute, hfree, hc, duplicateKeyPath, hfind]
  · refine ⟨?_, ?_, ?_, ?_, ?_⟩
    · simp [IdempotencyHandler.execute, hfree, hc]
    · simp [IdempotencyHandler.execute, hfree, hc]
    · intro x h
      simp [IdempotencyHandler.execute, hfree, hc] at h
    · intro _
      simp [IdempotencyHandler.execute, hfree, hc]
    · intro hcc
      exact absurd hcc hc

/-- Witness for the amended C5 on an empty table: one op error without a pg
code and one carrying 23505. -/
theorem execute_op_error_contract_witness :
    (IdempotencyHandler.execute 10 "k" 60
        (.error { message := "boom", code := none }) []).result =
      .error (.idempotencyClaimError "k" { message := "boom", code := none }) ∧
    (IdempotencyHandler.execute 10 "k" 60
        (.error { message := "dup", code := some "23505" }) []).result =
      .error (.idempotencyKeyInProcessError "k") ∧
    (IdempotencyHandler.execute 10 "k" 60
        (.error { message := "boom", code := none }) []).table =
      [{ idempotencyKey := "k", result := none, createdAt := 10,
         expiresAt := 10 + 60 * 1000 }] :=
  ⟨(execute_op_error_contract 10 "k" 60 { message := "boom", code := none } []
      (by decide) (by decide)).2.2.2.1 (by decide),
   (execute_op_error_contract 10 "k" 60 { message := "dup", code := some "23505" } []
      (by decide) (by decide)).2.2.2.2 (by decide),
   (execute_op_error_contract 10 "k" 60 { message := "boom", code := none } []
      (by decide) (by decide)).2.1⟩

/-- Claim C6: when the claim INSERT hits the primary-key uniqueness
violation, the existing row decides the outcome: a non-null result is
returned as (first = false, cachedResult); a null result raises InProcess;
and when the SELECT finds no unexpired row, UniqueConstraint is raised.  In
every branch the table is unchanged and the operation does not run. -/
theorem execute_duplicate_contract (now : Nat) (key : String)
    (ttlSeconds : Nat) (op : Except JsError String) (tbl : List IdemRow)
    (htaken : keyExists key tbl = true) :
    (∀ row, tbl.find? (fun r => decide (r.idempotencyKey = key) && decide (now < r.expiresAt)) =
        some row →
      (∀ r, row.result = some r →
        (IdempotencyHandler.execute now key ttlSeconds op tbl).result =
          .ok (false, some r)) ∧
      (row.result = none →
        (IdempotencyHandler.execute now key ttlSeconds op tbl).result =
          .error (.idempotencyKeyInProcessError key))) ∧
    (tbl.find? (fun r => decide (r.idempotencyKey = key) && decide (now < r.expiresAt)) = none →
      (IdempotencyHandler.execute now key ttlSeconds op tbl).result =
        .error (.uniqueConstraintError key)) ∧
    (IdempotencyHandler.execute now key ttlSeconds op tbl).table = tbl ∧
    (IdempotencyHandler.execute now key ttlSeconds op tbl).opRan = false := by
  refine ⟨?_, ?_, ?_, ?_⟩
  · intro row hrow
    constructor
    · intro r hr
      simp [IdempotencyHandler.execute, duplicateKeyPath, htaken, hrow, hr]
    · intro hr
      simp [IdempotencyHandler.execute, duplicateKeyPath, htaken, hrow, hr]
  · intro hrow
    simp [IdempotencyHandler.execute, duplicateKeyPath, htaken, hrow]
  · cases hrow : tbl.find? (fun r => decide (r.idempotencyKey = key) && decide (now < r.expiresAt)) with
    | none => simp [IdempotencyHandler.execute, duplicateKeyPath, htaken, hrow]
    | some row =>
      cases hres : row.result with
      | none => simp [IdempotencyHandler.execute, duplicateKeyPath, htaken, hrow, hres]
      | some r => simp [IdempotencyHandler.execute, duplicateKeyPath, htaken, hrow, hres]
  · cases hrow : tbl.find? (fun r => decide (r.idempotencyKey = key) && decide (now < r.expiresAt)) with
    | none => simp [IdempotencyHandler.execute, duplicateKeyPath, htaken, hrow]
    | some row =>
      cases hres : row.result with
      | none => simp [IdempotencyHandler.execute, duplicateKeyPath, htaken, hrow, hres]
      | some r => simp [IdempotencyHandler.execute, duplicateKeyPath, htaken, hrow, hres]

/-- A cached idempotency row used by the C6 witness. -/
def cachedIdemRow : IdemRow :=
  { idempotencyKey := "k", result := some "42", createdAt := 0,
    expiresAt := 1000 }

/-- Witness for C6 on a one-row table holding a cached result. -/
theorem execute_duplicate_contract_witness :
    (∀ row, [cachedIdemRow].find?
        (fun r => decide (r.idempotencyKey = "k") && decide (5 < r.expiresAt)) = some row →
      (∀ r, row.result = some r →
        (IdempotencyHandler.execute 5 "k" 60 (.ok "x") [cachedIdemRow]).result =
          .ok (false, some r)) ∧
      (row.result = none →
        (IdempotencyHandler.execute 5 "k" 60 (.ok "x") [cachedIdemRow]).result =
          .error (.idempotencyKeyInProcessError "k"))) ∧
    ([cachedIdemRow].find?
        (fun r => decide (r.idempotencyKey = "k") && decide (5 < r.expiresAt)) = none →
      (IdempotencyHandler.execute 5 "k" 60 (.ok "x") [cachedIdemRow]).result =
        .error (.uniqueConstraintError "k")) ∧
    (IdempotencyHandler.execute 5 "k" 60 (.ok "x") [cachedIdemRow]).table =
      [cachedIdemRow] ∧
    (IdempotencyHandler.execute 5 "k" 60 (.ok "x") [cachedIdemRow]).opRan = false :=
  execute_duplicate_contract 5 "k" 60 (.ok "x") [cachedIdemRow] (by decide)

/-- The errors produced by PgQueue.processMessage before nacking:
NoHandlerRegisteredError and HandlerExecutionError (wrapping the handler's
own error with the message type). -/
inductive PErr where
  | noHandlerRegistered (msgType : String)
  | handlerExecution (msgType : String) (cause : String)
  deriving DecidableEq, Repr

/-- What one processMessage invocation can throw: a failure escaping from
the nack repository call, or a handler exception escaping uncaught (which
the try/catch never lets happen). -/
inductive ProcThrow where
  | nackFailure (e : NackError)
  | handlerRaised (e : String)
  deriving DecidableEq, Repr

/-- The observable outcome of one PgQueue.processMessage call: error events
emitted, the returned/thrown value, and the queue table afterwards. -/
structure ProcResult where
  events : List PErr
  result : Except ProcThrow Unit
  db : List Row

def liftNack : Except NackError Unit → Except ProcThrow Unit
  | .ok _ => .ok ()
  | .error e => .error (.nackFailure e)

/-- PgQueue.processMessage: look up the handler for the message type; with
no handler, emit a NoHandlerRegisteredError event and nack the message with
that same error (its message text is msgOf applied to it, since last_error
stores error.message); with a handler, invoke it on the message, ack on
normal return, and on a raised error emit a HandlerExecutionError event and
nack with the raw handler error.  The handler outcome is modelled as the
Except value the handler function yields. -/
def processMessage (now : Nat) (msgOf : PErr → String)
    (handlers : String → Option (Row → Except String Unit)) (m : Row)
    (db : List Row) : ProcResult :=
  match handlers m.msgType with
  | none =>
    let n := nack now m.id (msgOf (.noHandlerRegistered m.msgType)) db
    { events := [.noHandlerRegistered m.msgType], result := liftNack n.1,
      db := n.2 }
  | some h =>
    match h m with
    | .ok _ =>
      { events := [], result := .ok (), db := ack now m.id db }
    | .error e =>
      let n := nack now m.id e db
      { events := [.handlerExecution m.msgType e], result := liftNack n.1,
        db := n.2 }

theorem liftNack_ne_handlerRaised (x : Except NackError Unit) (e : String) :
    liftNack x ≠ .error (.handlerRaised e) := by
  cases x with
  | ok u => simp [liftNack]
  | error n => simp [liftNack]

/-- Claim C8: with no registered handler, an error event is emitted and the
message is nacked with that same NoHandlerRegisteredError; with a handler,
the handler is invoked with the message, a normal return leads to ack and a
raised error leads to nack of that error (with a HandlerExecutionError
event); and in every case the handler's exception is contained, never
escaping processMessage. -/
theorem processMessage_contract (now : Nat) (msgOf : PErr → String)
    (handlers : String → Option (Row → Except String Unit)) (m : Row)
    (db : List Row) :
    (handlers m.msgType = none →
      processMessage now msgOf handlers m db =
        { events := [.noHandlerRegistered m.msgType],
          result := liftNack
            (nack now m.id (msgOf (.noHandlerRegistered m.msgType)) db).1,
          db := (nack now m.id (msgOf (.noHandlerRegistered m.msgType)) db).2 }) ∧
    (∀ h, handlers m.msgType = some h → h m = .ok () →
      processMessage now msgOf handlers m db =
        { events := [], result := .ok (), db := ack now m.id db }) ∧
    (∀ h e, handlers m.msgType = some h → h m = .error e →
      processMessage now msgOf handlers m db =
        { events := [.handlerExecution m.msgType e],
          result := liftNack (nack now m.id e db).1,
          db := (nack now m.id e db).2 }) ∧
    (∀ e, (processMessage now msgOf handlers m db).result ≠
        .error (.handlerRaised e)) := by
  refine ⟨?_, ?_, ?_, ?_⟩
  · intro hno
    simp [processMessage, hno]
  · intro h hsome hok
    simp [processMessage, hsome, hok]
  · intro h e hsome herr
    simp [processMessage, hsome, herr]
  · intro e
    cases hh : handlers m.msgType with
    | none => simpa [processMessage, hh] using liftNack_ne_handlerRaised _ e
    | some h =>
      cases hm : h m with
      | ok u => simp [processMessage, hh, hm]
      | error e2 => simpa [processMessage, hh, hm] using liftNack_ne_handlerRaised _ e

/-- Witness for C8: a handler that always raises, on a one-row queue. -/
theorem processMessage_contract_witness :
    processMessage 3 (fun _ => "no handler")
        (fun t => if t = "t" then some (fun _ => Except.error "boom") else none)
        sampleRow [sampleRow] =
      { events := [.handlerExecution "t" "boom"],
        result := liftNack (nack 3 1 "boom" [sampleRow]).1,
        db := (nack 3 1 "boom" [sampleRow]).2 } ∧
    (∀ e, (processMessage 3 (fun _ => "no handler")
        (fun t => if t = "t" then some (fun _ => Except.error "boom") else none)
        sampleRow [sampleRow]).result ≠ .error (.handlerRaised e)) :=
  ⟨(processMessage_contract 3 (fun _ => "no handler")
      (fun t => if t = "t" then some (fun _ => Except.error "boom") else none)
      sampleRow [sampleRow]).2.2.1 (fun _ => Except.error "boom") "boom" rfl rfl,
   (processMessage_contract 3 (fun _ => "no handler")
      (fun t => if t = "t" then some (fun _ => Except.error "boom") else none)
      sampleRow [sampleRow]).2.2.2⟩

/-- State of the queue table under concurrent dequeue statements: the rows,
the row locks held by in-flight claim statements (claimer session, row id),
and the messages already returned to claimers.  Each dequeue statement is
two atomic phases: the subselect takes the row lock (FOR UPDATE SKIP
LOCKED), and the commit publishes the PROCESSING update, releases the lock
and returns the row. -/
structure SysState where
  db : List Row
  locked : List (Nat × Nat)
  delivered : List (Nat × Row)

def lockedIds (s : SysState) : List Nat := s.locked.map Prod.snd

def deliveredIds (s : SysState) : List Nat := s.delivered.map (fun d => d.2.id)

def pendingIds (db : List Row) : List Nat :=
  (db.filter (fun r => decide (r.status = .pending))).map Row.id

def hasLock (c : Nat) (s : SysState) : Bool :=
  s.locked.any (fun p => decide (p.1 = c))

/-- The candidate rows of the claim subselect under SKIP LOCKED: PENDING
rows whose lock is not already held by some session. -/
def claimables (s : SysState) : List Row :=
  (s.db.filter (fun r => decide (r.status = .pending))).filter
    (fun r => decide (¬ r.id ∈ lockedIds s))

/-- Phase one of a dequeue by session c: the subselect picks the minimal
PENDING row among rows not already locked (SKIP LOCKED) and locks it; with
no claimable row the statement will return none, leaving the state as is.
A session already holding a lock is mid-statement and cannot start another. -/
def selectStep (c : Nat) (s : SysState) : SysState :=
  if hasLock c s then s
  else
    match pickMin (claimables s) with
    | none => s
    | some r => { s with locked := (c, r.id) :: s.locked }

/-- Phase two of a dequeue by session c: apply the UPDATE to the locked row
(status PROCESSING, updated_at NOW()), release the lock, and deliver the
updated row to the claimer. -/
def commitStep (now c : Nat) (s : SysState) : SysState :=
  match s.locked.find? (fun p => decide (p.1 = c)) with
  | none => s
  | some p =>
    match findById p.2 s.db with
    | none => s
    | some r =>
      let r1 := { r with status := MessageStatus.processing, updatedAt := now }
      { db := s.db.map (fun x => if x.id = p.2 then r1 else x),
        locked := s.locked.filter (fun q => decide (¬ q.1 = c)),
        delivered := (c, r1) :: s.delivered }

/-- One event of a concurrent dequeue history. -/
inductive DqStep where
  | selectPhase (c : Nat)
  | commitPhase (now c : Nat)
  deriving Repr

def applyStep (s : SysState) : DqStep → SysState
  | .selectPhase c => selectStep c s
  | .commitPhase now c => commitStep now c s

def runSteps (s : SysState) (steps : List DqStep) : SysState :=
  steps.foldl applyStep s

def initState (db : List Row) : SysState :=
  { db := db, locked := [], delivered := [] }

theorem mem_pendingIds {x : Nat} {db : List Row} :
    x ∈ pendingIds db ↔ ∃ r ∈ db, r.status = .pending ∧ r.id = x := by
  unfold pendingIds
  simp [List.mem_map, List.mem_filter]
  constructor
  · rintro ⟨r, ⟨hr, hp⟩, hid⟩
    exact ⟨r, hr, hp, hid⟩
  · rintro ⟨r, hr, hp, hid⟩
    exact ⟨r, ⟨hr, hp⟩, hid⟩

theorem findById_of_mem_nodup {db : List Row} {r : Row}
    (hN : (db.map Row.id).Nodup) (hmem : r ∈ db) :
    findById r.id db = some r := by
  induction db with
  | nil => simp at hmem
  | cons a rs ih =>
    have hN1 : a.id ∉ List.map Row.id rs ∧ (List.map Row.id rs).Nodup := by
      rw [List.map_cons] at hN
      exact List.nodup_cons.mp hN
    rcases List.mem_cons.mp hmem with hra | hrs
    · subst hra
      simp [findById]
    · have hne : a.id ≠ r.id := by
        intro hc
        exact hN1.1 (hc ▸ List.mem_map_of_mem Row.id hrs)
      have : ¬ (a.id = r.id) := hne
      simp [findById, this]
      exact ih hN1.2 hrs

theorem findById_map_other {id rid : Nat} {db : List Row} {r1 : Row}
    (hne : id ≠ rid) (hr1 : r1.id = rid) :
    findById id (db.map (fun x => if x.id = rid then r1 else x)) =
      findById id db := by
  induction db with
  | nil => rfl
  | cons a rs ih =>
    by_cases ha : a.id = rid
    · have e1 : (fun x : Row => if x.id = rid then r1 else x) a = r1 := if_pos ha
      have h1 : ¬ (r1.id = id) := by
        rw [hr1]
        exact fun hc => hne hc.symm
      have h2 : ¬ (a.id = id) := by
        rw [ha]
        exact fun hc => hne hc.symm
      simp only [List.map_cons, e1, findById]
      rw [if_neg h1, if_neg h2, ih]
    · have e1 : (fun x : Row => if x.id = rid then r1 else x) a = a := if_neg ha
      simp only [List.map_cons, e1, findById]
      by_cases h2 : a.id = id
      · rw [if_pos h2, if_pos h2]
      · rw [if_neg h2, if_neg h2, ih]

theorem pendingIds_map_update {x rid : Nat} {db : List Row} {r1 : Row}
    (hr1s : r1.status ≠ .pending) (hr1 : r1.id = rid) :
    (x ∈ pendingIds (db.map (fun y => if y.id = rid then r1 else y)) ↔
      (x ∈ pendingIds db ∧ x ≠ rid)) := by
  constructor
  · intro hx
    obtain ⟨r, hr, hp, hid⟩ := mem_pendingIds.mp hx
    obtain ⟨y0, hy0, hy0eq⟩ := List.mem_map.mp hr
    by_cases hy : y0.id = rid
    · exfalso
      rw [if_pos hy] at hy0eq
      exact hr1s (hy0eq ▸ hp)
    · rw [if_neg hy] at hy0eq
      subst hy0eq
      exact ⟨mem_pendingIds.mpr ⟨y0, hy0, hp, hid⟩, fun hc => hy (hid.trans hc)⟩
  · rintro ⟨hx, hne⟩
    obtain ⟨r, hr, hp, hid⟩ := mem_pendingIds.mp hx
    have hrne : r.id ≠ rid := fun hc => hne (hid ▸ hc)
    refine mem_pendingIds.mpr ⟨r, ?_, hp, hid⟩
    have : (if r.id = rid then r1 else r) = r := if_neg hrne
    rw [← this]
    exact List.mem_map_of_mem _ hr

theorem map_id_map_update {rid : Nat} {db : List Row} {r1 : Row}
    (hr1 : r1.id = rid) :
    (db.map (fun x => if x.id = rid then r1 else x)).map Row.id =
      db.map Row.id := by
  rw [List.map_map]
  apply List.map_congr_left
  intro a _
  by_cases ha : a.id = rid
  · simp [ha, hr1]
  · simp [ha]

/-- Inductive invariant of concurrent dequeue histories, relative to the
initially PENDING ids P0: ids are unique; locks are held on distinct
PENDING rows; delivered ids are distinct, no longer PENDING, and together
with the still-PENDING ids partition P0. -/
structure Inv (P0 : List Nat) (s : SysState) : Prop where
  nodupIds : (s.db.map Row.id).Nodup
  lockedPending : ∀ p ∈ s.locked,
    ∃ r, findById p.2 s.db = some r ∧ r.status = MessageStatus.pending
  lockedNodup : (lockedIds s).Nodup
  deliveredNodup : (deliveredIds s).Nodup
  deliveredNotPending : ∀ x ∈ deliveredIds s, ¬ x ∈ pendingIds s.db
  pendingSplit : ∀ x, x ∈ P0 ↔ (x ∈ pendingIds s.db ∨ x ∈ deliveredIds s)

theorem inv_selectStep (P0 : List Nat) (c : Nat) (s : SysState)
    (h : Inv P0 s) : Inv P0 (selectStep c s) := by
  unfold selectStep
  by_cases hl : hasLock c s = true
  · simpa [hl] using h
  · simp only [Bool.not_eq_true] at hl
    simp only [hl]
    cases hp : pickMin (claimables s) with
    | none => simpa using h
    | some r =>
      simp only []
      have hrmem := pickMin_mem hp
      rw [claimables] at hrmem
      have hr2 := List.mem_filter.mp hrmem
      have hr3 := List.mem_filter.mp hr2.1
      have hrdb : r ∈ s.db := hr3.1
      have hrpend : r.status = MessageStatus.pending := by simpa using hr3.2
      have hrunlocked : ¬ r.id ∈ lockedIds s := by simpa using hr2.2
      refine ⟨h.nodupIds, ?_, ?_, h.deliveredNodup, h.deliveredNotPending,
        h.pendingSplit⟩
      · intro p hpmem
        rcases List.mem_cons.mp hpmem with hpc | hps
        · subst hpc
          exact ⟨r, findById_of_mem_nodup h.nodupIds hrdb, hrpend⟩
        · exact h.lockedPending p hps
      · show (List.map Prod.snd ((c, r.id) :: s.locked)).Nodup
        simp only [List.map_cons]
        exact List.nodup_cons.mpr ⟨hrunlocked, h.lockedNodup⟩

theorem inv_commitStep (P0 : List Nat) (now c : Nat) (s : SysState)
    (h : Inv P0 s) : Inv P0 (commitStep now c s) := by
  unfold commitStep
  split
  · exact h
  · rename_i p hf
    split
    · exact h
    · rename_i r hdb
      have hplock : p ∈ s.locked := List.mem_of_find?_eq_some hf
      have hpc : p.1 = c := by simpa using List.find?_some hf
      have hrid : r.id = p.2 := findById_id hdb
      have hrpend : r.status = MessageStatus.pending := by
        obtain ⟨r2, hr2, hr2p⟩ := h.lockedPending p hplock
        rw [hdb] at hr2
        injection hr2 with hr2
        exact hr2 ▸ hr2p
      have hp2pend : p.2 ∈ pendingIds s.db :=
        mem_pendingIds.mpr ⟨r, findById_mem hdb, hrpend, hrid⟩
      generalize hgen :
        ({ r with status := MessageStatus.processing, updatedAt := now } : Row) = r1
      have hr1id : r1.id = p.2 := by
        rw [← hgen]
        exact hrid
      have hr1st : r1.status ≠ MessageStatus.pending := by
        rw [← hgen]
        simp
      refine ⟨?_, ?_, ?_, ?_, ?_, ?_⟩
      · show ((s.db.map (fun x => if x.id = p.2 then r1 else x)).map Row.id).Nodup
        rw [map_id_map_update hr1id]
        exact h.nodupIds
      · show ∀ q ∈ s.locked.filter (fun q => decide (¬ q.1 = c)),
          ∃ rq, findById q.2 (s.db.map (fun x => if x.id = p.2 then r1 else x)) =
            some rq ∧ rq.status = MessageStatus.pending
        intro q hq
        have hq2 := List.mem_filter.mp hq
        have hqmem : q ∈ s.locked := hq2.1
        have hqc : ¬ q.1 = c := by simpa using hq2.2
        obtain ⟨rq, hrq, hrqp⟩ := h.lockedPending q hqmem
        have hqne : q.2 ≠ p.2 := by
          intro hc
          have heq : q = p :=
            List.inj_on_of_nodup_map h.lockedNodup hqmem hplock hc
          exact hqc (heq ▸ hpc)
        refine ⟨rq, ?_, hrqp⟩
        rw [findById_map_other hqne hr1id]
        exact hrq
      · show (List.map Prod.snd
            (s.locked.filter (fun q => decide (¬ q.1 = c)))).Nodup
        exact List.Nodup.sublist
          (List.Sublist.map Prod.snd (List.filter_sublist s.locked)) h.lockedNodup
      · show (List.map (fun d => d.2.id) ((c, r1) :: s.delivered)).Nodup
        simp only [List.map_cons]
        refine List.nodup_cons.mpr ⟨?_, h.deliveredNodup⟩
        rw [hr1id]
        exact fun hc => h.deliveredNotPending p.2 hc hp2pend
      · show ∀ x ∈ List.map (fun d => d.2.id) ((c, r1) :: s.delivered),
          ¬ x ∈ pendingIds (s.db.map (fun x => if x.id = p.2 then r1 else x))
        intro x hx hpend
        have hsplit := (pendingIds_map_update hr1st hr1id).mp hpend
        simp only [List.map_cons] at hx
        rcases List.mem_cons.mp hx with hxp | hxs
        · exact hsplit.2 (by rw [hxp, hr1id])
        · exact h.deliveredNotPending x hxs hsplit.1
      · show ∀ x, x ∈ P0 ↔
          (x ∈ pendingIds (s.db.map (fun x => if x.id = p.2 then r1 else x)) ∨
            x ∈ List.map (fun d => d.2.id) ((c, r1) :: s.delivered))
        intro x
        have hsplit := h.pendingSplit x
        have hmapupd : x ∈ pendingIds (s.db.map (fun y => if y.id = p.2 then r1 else y)) ↔
            (x ∈ pendingIds s.db ∧ x ≠ p.2) := pendingIds_map_update hr1st hr1id
        simp only [List.map_cons, List.mem_cons]
        constructor
        · intro hx
          rcases hsplit.mp hx with hpend | hdel
          · by_cases hxp : x = p.2
            · exact Or.inr (Or.inl (hxp.trans hr1id.symm))
            · exact Or.inl (hmapupd.mpr ⟨hpend, hxp⟩)
          · exact Or.inr (Or.inr hdel)
        · intro hx
          rcases hx with hpend | hx1
          · exact hsplit.mpr (Or.inl (hmapupd.mp hpend).1)
          · rcases hx1 with hxr1 | hxs
            · refine hsplit.mpr (Or.inl ?_)
              rw [hxr1, hr1id]
              exact hp2pend
            · exact hsplit.mpr (Or.inr hxs)

theorem inv_runSteps (P0 : List Nat) (steps : List DqStep) :
    ∀ s : SysState, Inv P0 s → Inv P0 (runSteps s steps) := by
  induction steps with
  | nil => exact fun s h => h
  | cons st rest ih =>
    intro s h
    have h1 : Inv P0 (applyStep s st) := by
      cases st with
      | selectPhase c => exact inv_selectStep P0 c s h
      | commitPhase now c => exact inv_commitStep P0 now c s h
    exact ih _ h1

theorem inv_init (db0 : List Row) (hN : (db0.map Row.id).Nodup) :
    Inv (pendingIds db0) (initState db0) := by
  refine ⟨hN, ?_, ?_, ?_, ?_, ?_⟩
  · intro p hp
    simp [initState] at hp
  · simp [lockedIds, initState]
  · simp [deliveredIds, initState]
  · intro x hx
    simp [deliveredIds, initState] at hx
  · intro x
    simp [deliveredIds, initState]

theorem selectStep_cases (c : Nat) (s : SysState) :
    selectStep c s = s ∨
    ∃ rid, ¬ rid ∈ lockedIds s ∧ rid ∈ pendingIds s.db ∧
      (selectStep c s).locked = (c, rid) :: s.locked ∧
      (selectStep c s).db = s.db ∧
      (selectStep c s).delivered = s.delivered := by
  by_cases hl : hasLock c s = true
  · left
    simp [selectStep, hl]
  · simp only [Bool.not_eq_true] at hl
    cases hp : pickMin (claimables s) with
    | none =>
      left
      simp [selectStep, hl, hp]
    | some r =>
      right
      have hsel : selectStep c s = { s with locked := (c, r.id) :: s.locked } := by
        simp [selectStep, hl, hp]
      have hrmem := pickMin_mem hp
      rw [claimables] at hrmem
      have hr2 := List.mem_filter.mp hrmem
      have hr3 := List.mem_filter.mp hr2.1
      refine ⟨r.id, by simpa using hr2.2, ?_, by rw [hsel], by rw [hsel], by rw [hsel]⟩
      exact mem_pendingIds.mpr ⟨r, hr3.1, by simpa using hr3.2, rfl⟩

/-- Claim C3: in every interleaved history of concurrent dequeue statements
(select-and-lock phase, commit phase) against a queue with unique ids:
(i) the delivered message ids are pairwise distinct — no two claimers ever
receive the same id; (ii) every delivered id was an initially PENDING row;
(iii) once the history drains the queue (no lock held, no PENDING row
left), every initially PENDING row has been delivered to exactly one
claimer; and (iv) a select phase never blocks: it either returns none
leaving the state unchanged, or locks a row that is PENDING and not locked
by any other session (SKIP LOCKED). -/
theorem dequeue_work_stealing (db0 : List Row)
    (hN : (db0.map Row.id).Nodup) (steps : List DqStep) :
    (deliveredIds (runSteps (initState db0) steps)).Nodup ∧
    (∀ x ∈ deliveredIds (runSteps (initState db0) steps), x ∈ pendingIds db0) ∧
    ((runSteps (initState db0) steps).locked = [] →
      pendingIds (runSteps (initState db0) steps).db = [] →
      ∀ x, x ∈ pendingIds db0 ↔
        x ∈ deliveredIds (runSteps (initState db0) steps)) ∧
    (∀ c, selectStep c (runSteps (initState db0) steps) =
          runSteps (initState db0) steps ∨
      ∃ rid, ¬ rid ∈ lockedIds (runSteps (initState db0) steps) ∧
        rid ∈ pendingIds (runSteps (initState db0) steps).db ∧
        (selectStep c (runSteps (initState db0) steps)).locked =
          (c, rid) :: (runSteps (initState db0) steps).locked ∧
        (selectStep c (runSteps (initState db0) steps)).db =
          (runSteps (initState db0) steps).db ∧
        (selectStep c (runSteps (initState db0) steps)).delivered =
          (runSteps (initState db0) steps).delivered) := by
  have hinv := inv_runSteps (pendingIds db0) steps (initState db0) (inv_init db0 hN)
  refine ⟨hinv.deliveredNodup, ?_, ?_, ?_⟩
  · intro x hx
    exact (hinv.pendingSplit x).mpr (Or.inr hx)
  · intro _ hpend x
    constructor
    · intro hx
      rcases (hinv.pendingSplit x).mp hx with hp | hd
      · rw [hpend] at hp
        exact absurd hp (List.not_mem_nil x)
      · exact hd
    · intro hx
      exact (hinv.pendingSplit x).mpr (Or.inr hx)
  · intro c
    exact selectStep_cases c (runSteps (initState db0) steps)

/-- The concrete two-claimer history used by the C3 witness. -/
def c3steps : List DqStep :=
  [.selectPhase 1, .selectPhase 2, .commitPhase 50 1, .commitPhase 60 2]

/-- Witness for C3: two claimers drain a two-row queue; deliveries are
distinct and cover exactly the initially PENDING ids. -/
theorem dequeue_work_stealing_witness :
    (deliveredIds (runSteps (initState [sampleRow2a, sampleRow2b]) c3steps)).Nodup ∧
    (∀ x, x ∈ pendingIds [sampleRow2a, sampleRow2b] ↔
      x ∈ deliveredIds (runSteps (initState [sampleRow2a, sampleRow2b]) c3steps)) :=
  ⟨(dequeue_work_stealing [sampleRow2a, sampleRow2b] (by decide) c3steps).1,
   (dequeue_work_stealing [sampleRow2a, sampleRow2b] (by decide) c3steps).2.2.1
     (by decide) (by decide)⟩
